import Mathlib

/-!
# Verification of the imap_dmarc_extract attachment pipeline

Shallow embedding of the attachment-extraction and decompression pipeline of
`src/main.rs` (functions `get_attachment`, `decompress_attachment`, and the
per-message loop in `main`), together with theorems settling the frozen
claims about it.

Modelling conventions:
* Bytes are `Nat`, byte strings are `List Nat`.
* A parsed MIME part (`mailparse::ParsedMail`) is a `Part`: its declared
  media type, its raw decoded body (`get_body_raw`), the optional
  content-disposition `filename` parameter, and its immediate subparts.
  Body decoding itself is outside the modelled core and is taken to yield
  the recorded bytes.
* Rust `Result`/`anyhow` errors are the `err` constructor carrying the exact
  error message string from the source; a Rust panic (a failed `.unwrap()`
  or `.expect()`) is the distinguished `crash` outcome.
* The third-party `zip` and `libflate` crates are abstract capabilities:
  functions `zipOpen : List Nat → ZipOpenResult` (for `ZipArchive::new`,
  with decoded entry contents) and `gzipDecode : List Nat → GzipResult`
  (for `gzip::Decoder::new` plus the following `io::copy`).  Theorems
  quantify over these capabilities.
* Rust `PathBuf::with_extension("")` is modelled faithfully on the final
  path component, including the hidden-file rule (a leading-dot name with
  no further dot has no extension).
-/

namespace ImapDmarc

/-- A node of the parsed MIME tree (`mailparse::ParsedMail`): declared media
type (`ctype.mimetype`), raw body bytes (`get_body_raw`), the optional
content-disposition `filename` parameter, and the immediate subparts. -/
structure Part where
  mimetype : String
  body : List Nat
  filename : Option String
  subparts : List Part

/-- The `Attachment` struct of `src/main.rs`, field for field. -/
structure Attachment where
  content : List Nat
  decompressed : Option (List Nat)
  mimetype : String
  name : String
deriving DecidableEq, Repr

/-- The `USABLE_MIMETYPES` allow-list constant of `src/main.rs`. -/
def USABLE_MIMETYPES : List String :=
  ["application/zip", "application/gzip", "application/octet-stream"]

/-- Outcome of `get_attachment`: `ok` is `Ok(Attachment)`, `err` is an
`anyhow` error carrying the source's message string, `crash` is a panic
(the `.unwrap()` on a missing `filename` parameter). -/
inductive ExtractOut where
  | ok (a : Attachment)
  | err (msg : String)
  | crash
deriving DecidableEq, Repr

/-- One entry of an opened zip archive: its recorded name and its decoded
content bytes (per-entry decode is abstracted as already performed). -/
structure ZipEntry where
  name : String
  data : List Nat
deriving DecidableEq, Repr

/-- Result of `zip::ZipArchive::new` on the given bytes: `invalid` when the
bytes are not a valid archive (the constructor returns `Err`), otherwise the
entries in directory order. -/
inductive ZipOpenResult where
  | invalid
  | ok (entries : List ZipEntry)
deriving DecidableEq, Repr

/-- Result of gzip decoding: `badHeader` when `libflate::gzip::Decoder::new`
rejects the header, `copyErr` when the subsequent `io::copy` fails
mid-stream, otherwise the decoded bytes. -/
inductive GzipResult where
  | badHeader
  | copyErr
  | ok (data : List Nat)
deriving DecidableEq, Repr

/-- Outcome of `decompress_attachment`: `ok` is `Ok(Attachment)`, `err` is an
error propagated with `?` (`by_index(0)` on an empty archive, or an
`io::copy` failure), `crash` is a panic (the `.unwrap()` on
`ZipArchive::new` or `Decoder::new`). -/
inductive DecompOut where
  | ok (a : Attachment)
  | err
  | crash
deriving DecidableEq, Repr

/-- Index of the last occurrence of `c` in `cs`, if any. -/
def lastIdxOf (c : Char) : List Char → Option Nat
  | [] => none
  | a :: as =>
    match lastIdxOf c as with
    | some i => some (i + 1)
    | none => if a = c then some 0 else none

/-- Rust `Path::file_stem` on a single path component: the whole name when it
has no dot or is a leading-dot name with no further dot, otherwise the part
before the last dot. -/
def fileStemChars (f : List Char) : List Char :=
  match f with
  | [] => []
  | h :: t =>
    if h = '.' ∧ '.' ∉ t then h :: t
    else
      match lastIdxOf '.' (h :: t) with
      | none => h :: t
      | some i => (h :: t).take i

/-- Rust `PathBuf::with_extension("")` on the character list of a path:
replace the final component by its stem; a final component of `""`, `"."`
or `".."` has no file name, so the path is unchanged. -/
def withExtensionEmptyChars (cs : List Char) : List Char :=
  match lastIdxOf '/' cs with
  | none =>
    if cs = [] ∨ cs = ['.'] ∨ cs = ['.', '.'] then cs else fileStemChars cs
  | some i =>
    let comp := cs.drop (i + 1)
    if comp = [] ∨ comp = ['.'] ∨ comp = ['.', '.'] then cs
    else cs.take (i + 1) ++ fileStemChars comp

/-- `PathBuf::from(name).with_extension("").to_str()` as used in
`decompress_attachment`. -/
def withExtensionEmpty (s : String) : String :=
  ⟨withExtensionEmptyChars s.data⟩

/-- The `decompress_attachment` function of `src/main.rs`, parametric in the
zip and gzip library capabilities.  The source unwraps the library
constructors (`crash` on invalid input), propagates `by_index`/`copy`
errors with `?`, and always stores the output buffer in `decompressed`. -/
def decompress_attachment (zipOpen : List Nat → ZipOpenResult)
    (gzipDecode : List Nat → GzipResult) (attachment : Attachment) : DecompOut :=
  if attachment.mimetype = "application/zip" then
    match zipOpen attachment.content with
    | ZipOpenResult.invalid => DecompOut.crash
    | ZipOpenResult.ok [] => DecompOut.err
    | ZipOpenResult.ok (e :: _) =>
      DecompOut.ok { attachment with decompressed := some e.data, name := e.name }
  else if attachment.mimetype = "application/gzip"
      ∨ attachment.mimetype = "application/octet-stream" then
    match gzipDecode attachment.content with
    | GzipResult.badHeader => DecompOut.crash
    | GzipResult.copyErr => DecompOut.err
    | GzipResult.ok data =>
      DecompOut.ok { attachment with
        decompressed := some data
        name := withExtensionEmpty attachment.name }
  else
    DecompOut.ok { attachment with decompressed := some [] }

/-- State of the subpart loop of `get_attachment` after it runs: either the
first subpart with an allow-listed media type was found (its media type,
body and `filename` parameter recorded), or none matched; either way the
mutable `content_type` variable holds the media type last assigned. -/
inductive ScanOut where
  | found (ct : String) (body : List Nat) (fn : Option String)
  | noneFound (ct : String)
deriving Repr

/-- The `for subpart in &mail.subparts` loop of `get_attachment`:
`content_type` is overwritten by every visited subpart; the first subpart
with an allow-listed media type stops the loop. -/
def scanSubparts (ct : String) : List Part → ScanOut
  | [] => ScanOut.noneFound ct
  | p :: ps =>
    if USABLE_MIMETYPES.contains p.mimetype then
      ScanOut.found p.mimetype p.body p.filename
    else scanSubparts p.mimetype ps

/-- The tail of `get_attachment`: the emptiness checks on `body` and `name`
and the final `Ok(Attachment { .. })`. -/
def finishAttachment (ct : String) (body : List Nat) (nm : String) : ExtractOut :=
  if body = [] then ExtractOut.err "No attachment found."
  else if nm = "" then ExtractOut.err "No file name found."
  else ExtractOut.ok ⟨body, none, ct, nm⟩

/-- The `get_attachment` function of `src/main.rs`.  A selected part's
missing `filename` parameter is unwrapped, hence `crash`; an empty body or
empty name reaches the checks and yields the source's error messages. -/
def get_attachment (mail : Part) : ExtractOut :=
  if USABLE_MIMETYPES.contains mail.mimetype then
    match mail.filename with
    | none => ExtractOut.crash
    | some nm => finishAttachment mail.mimetype mail.body nm
  else if mail.subparts.isEmpty then
    finishAttachment mail.mimetype [] ""
  else
    match scanSubparts mail.mimetype mail.subparts with
    | ScanOut.found _ _ none => ExtractOut.crash
    | ScanOut.found ct body (some nm) => finishAttachment ct body nm
    | ScanOut.noneFound ct => finishAttachment ct [] ""

/-- The part `get_attachment` selects, as the spec describes the locator:
the top-level part when its media type is allow-listed, otherwise the first
immediate subpart whose media type is allow-listed. -/
def selectPart (mail : Part) : Option Part :=
  if USABLE_MIMETYPES.contains mail.mimetype then some mail
  else mail.subparts.find? (fun p => USABLE_MIMETYPES.contains p.mimetype)

/-- `mail` with every part below depth one removed: the witness that the
locator never examines parts deeper than the immediate subparts. -/
def truncate (mail : Part) : Part :=
  { mail with subparts := mail.subparts.map fun q => { q with subparts := [] } }

/-- Per-message outcome of the loop in `main`: the decompressed bytes are
handed to the file writer, or the message is skipped with a logged error,
or the process panics (an `.unwrap()` failed). -/
inductive MsgOutcome where
  | written (name : String) (bytes : List Nat)
  | skipped (msg : String)
  | crash
deriving DecidableEq, Repr

/-- One iteration of the message loop in `main`: a `get_attachment` error is
logged and skipped (`continue`), but the `decompress_attachment` result is
unwrapped, so both its `err` and its `crash` outcomes panic the process. -/
def processMessage (zipOpen : List Nat → ZipOpenResult)
    (gzipDecode : List Nat → GzipResult) (mail : Part) : MsgOutcome :=
  match get_attachment mail with
  | ExtractOut.err e => MsgOutcome.skipped e
  | ExtractOut.crash => MsgOutcome.crash
  | ExtractOut.ok a =>
    match decompress_attachment zipOpen gzipDecode a with
    | DecompOut.ok a2 => MsgOutcome.written a2.name (a2.decompressed.getD [])
    | DecompOut.err => MsgOutcome.crash
    | DecompOut.crash => MsgOutcome.crash

/-- The message loop of `main` over a batch of parsed messages: a crash
terminates the run, so later messages produce no outcome at all. -/
def runBatch (zipOpen : List Nat → ZipOpenResult)
    (gzipDecode : List Nat → GzipResult) : List Part → List MsgOutcome
  | [] => []
  | m :: ms =>
    match processMessage zipOpen gzipDecode m with
    | MsgOutcome.crash => [MsgOutcome.crash]
    | o => o :: runBatch zipOpen gzipDecode ms

/-- Maps a function over the attachment of a successful decompression
outcome and leaves failures unchanged. -/
def mapOk (f : Attachment → Attachment) : DecompOut → DecompOut
  | DecompOut.ok a => DecompOut.ok (f a)
  | o => o

theorem lastIdxOf_eq_none {c : Char} {cs : List Char} (h : c ∉ cs) :
    lastIdxOf c cs = none := by
  induction cs with
  | nil => rfl
  | cons a as ih =>
    simp only [List.mem_cons, not_or] at h
    rw [lastIdxOf, ih h.2, if_neg (fun hh => h.1 hh.symm)]

theorem lastIdxOf_append {c : Char} (s t : List Char) (h : c ∉ t) :
    lastIdxOf c (s ++ c :: t) = some s.length := by
  induction s with
  | nil => rw [List.nil_append, lastIdxOf, lastIdxOf_eq_none h, if_pos rfl]; rfl
  | cons a as ih => rw [List.cons_append, lastIdxOf, ih]; rfl

theorem fileStemChars_no_dot {f : List Char} (h : '.' ∉ f) :
    fileStemChars f = f := by
  cases f with
  | nil => rfl
  | cons a t =>
    have h1 : ¬(a = '.' ∧ '.' ∉ t) := by
      rintro ⟨rfl, -⟩
      exact h (List.mem_cons_self _ _)
    rw [fileStemChars, if_neg h1, lastIdxOf_eq_none h]

theorem fileStemChars_ext {s t : List Char} (hs : s ≠ []) (ht : '.' ∉ t) :
    fileStemChars (s ++ '.' :: t) = s := by
  cases s with
  | nil => exact absurd rfl hs
  | cons a s2 =>
    have hmem : '.' ∈ s2 ++ '.' :: t := by simp
    have h1 : ¬(a = '.' ∧ '.' ∉ (s2 ++ '.' :: t)) := fun hh => hh.2 hmem
    rw [List.cons_append, fileStemChars, if_neg h1, ← List.cons_append,
      lastIdxOf_append (a :: s2) t ht]
    exact List.take_left (a :: s2) ('.' :: t)

theorem withExtensionEmptyChars_no_slash {cs : List Char} (h : '/' ∉ cs)
    (h0 : cs ≠ []) (h1 : cs ≠ ['.']) (h2 : cs ≠ ['.', '.']) :
    withExtensionEmptyChars cs = fileStemChars cs := by
  rw [withExtensionEmptyChars, lastIdxOf_eq_none h, if_neg]
  simp [h0, h1, h2]

theorem scanSubparts_find_some {parts : List Part} {p : Part} (ct : String)
    (h : parts.find? (fun q => USABLE_MIMETYPES.contains q.mimetype) = some p) :
    scanSubparts ct parts = ScanOut.found p.mimetype p.body p.filename := by
  induction parts generalizing ct with
  | nil => simp [List.find?] at h
  | cons q qs ih =>
    cases hq : USABLE_MIMETYPES.contains q.mimetype with
    | true =>
      simp only [List.find?, hq] at h
      cases h
      rw [scanSubparts, if_pos hq]
    | false =>
      simp only [List.find?, hq] at h
      rw [scanSubparts, if_neg (by rw [hq]; decide)]
      exact ih _ h

theorem scanSubparts_none_of_all {parts : List Part} (ct : String)
    (h : ∀ p ∈ parts, USABLE_MIMETYPES.contains p.mimetype = false) :
    ∃ ct2, scanSubparts ct parts = ScanOut.noneFound ct2 := by
  induction parts generalizing ct with
  | nil => exact ⟨ct, rfl⟩
  | cons q qs ih =>
    rw [scanSubparts, if_neg (by rw [h q (List.mem_cons_self _ _)]; decide)]
    exact ih _ fun p hp => h p (List.mem_cons_of_mem _ hp)

theorem scanSubparts_found_mem {parts : List Part} {ct ct2 : String}
    {body : List Nat} {fn : Option String}
    (h : scanSubparts ct parts = ScanOut.found ct2 body fn) :
    ∃ p ∈ parts, USABLE_MIMETYPES.contains p.mimetype = true ∧
      ct2 = p.mimetype ∧ body = p.body ∧ fn = p.filename := by
  induction parts generalizing ct with
  | nil => simp [scanSubparts] at h
  | cons q qs ih =>
    rw [scanSubparts] at h
    by_cases hq : USABLE_MIMETYPES.contains q.mimetype
    · rw [if_pos hq] at h
      cases h
      exact ⟨q, List.mem_cons_self _ _, hq, rfl, rfl, rfl⟩
    · rw [if_neg hq] at h
      obtain ⟨p, hp, hrest⟩ := ih h
      exact ⟨p, List.mem_cons_of_mem _ hp, hrest⟩

theorem scanSubparts_map_stripped (ct : String) (parts : List Part) :
    scanSubparts ct (parts.map fun q => { q with subparts := [] }) =
      scanSubparts ct parts := by
  induction parts generalizing ct with
  | nil => rfl
  | cons q qs ih =>
    rw [List.map_cons, scanSubparts, scanSubparts]
    by_cases hq : USABLE_MIMETYPES.contains q.mimetype
    · rw [if_pos hq, if_pos hq]
    · rw [if_neg hq, if_neg hq]
      exact ih _

theorem scanSubparts_map_stripped_cons (ct : String) (q : Part) (qs : List Part) :
    scanSubparts ct ({ q with subparts := [] } ::
        qs.map fun r => { r with subparts := [] }) = scanSubparts ct (q :: qs) := by
  rw [scanSubparts, scanSubparts]
  by_cases hq : USABLE_MIMETYPES.contains q.mimetype
  · rw [if_pos hq, if_pos hq]
  · rw [if_neg hq, if_neg hq]
    exact scanSubparts_map_stripped _ qs

theorem get_attachment_truncate (mail : Part) :
    get_attachment (truncate mail) = get_attachment mail := by
  obtain ⟨mt, bd, fn, subs⟩ := mail
  by_cases hm : USABLE_MIMETYPES.contains mt
  · rw [truncate, get_attachment, get_attachment]
    simp only [if_pos hm]
  · cases subs with
    | nil => rfl
    | cons q qs =>
      rw [truncate, get_attachment, get_attachment]
      simp only [if_neg hm, List.map_cons, List.isEmpty_cons,
        scanSubparts_map_stripped_cons]

theorem get_attachment_selected {mail p : Part}
    (hp : selectPart mail = some p) :
    get_attachment mail =
      match p.filename with
      | none => ExtractOut.crash
      | some nm => finishAttachment p.mimetype p.body nm := by
  rw [selectPart] at hp
  by_cases hm : USABLE_MIMETYPES.contains mail.mimetype
  · rw [if_pos hm] at hp
    cases hp
    rw [get_attachment, if_pos hm]
  · rw [if_neg hm] at hp
    have hsub : mail.subparts.isEmpty = false := by
      cases hs : mail.subparts with
      | nil => rw [hs] at hp; simp [List.find?] at hp
      | cons q qs => rfl
    rw [get_attachment, if_neg hm, hsub,
      scanSubparts_find_some mail.mimetype hp]
    cases p.filename <;> rfl

theorem get_attachment_selected_some {mail p : Part} {nm : String}
    (hp : selectPart mail = some p) (hn : p.filename = some nm) :
    get_attachment mail = finishAttachment p.mimetype p.body nm := by
  rw [get_attachment_selected hp, hn]

theorem get_attachment_selected_none {mail p : Part}
    (hp : selectPart mail = some p) (hn : p.filename = none) :
    get_attachment mail = ExtractOut.crash := by
  rw [get_attachment_selected hp, hn]

theorem finishAttachment_ok {ct : String} {body : List Nat} {nm : String}
    {a : Attachment} (h : finishAttachment ct body nm = ExtractOut.ok a) :
    a = ⟨body, none, ct, nm⟩ ∧ body ≠ [] ∧ nm ≠ "" := by
  rw [finishAttachment] at h
  by_cases h1 : body = []
  · rw [if_pos h1] at h; cases h
  · rw [if_neg h1] at h
    by_cases h2 : nm = ""
    · rw [if_pos h2] at h; cases h
    · rw [if_neg h2] at h
      cases h
      exact ⟨rfl, h1, h2⟩

theorem decompress_ok_isSome {z : List Nat → ZipOpenResult}
    {g : List Nat → GzipResult} {a b : Attachment}
    (h : decompress_attachment z g a = DecompOut.ok b) :
    b.decompressed.isSome = true := by
  unfold decompress_attachment at h
  split at h
  · split at h
    · cases h
    · cases h
    · cases h; rfl
  · split at h
    · split at h
      · cases h
      · cases h
      · cases h; rfl
    · cases h; rfl

/-- C1: for every parsed message whose selected part — the top-level part
when its media type is allow-listed, otherwise the first immediate subpart
with an allow-listed media type — has a non-empty body and a non-empty
declared filename, `get_attachment` succeeds and returns exactly those body
bytes, that filename and that media type; and the result is unchanged when
all parts deeper than one level are removed, so no such part is ever
examined. -/
theorem claim_C1 (mail p : Part) (nm : String)
    (hp : selectPart mail = some p)
    (hb : p.body ≠ [])
    (hn : p.filename = some nm) (hne : nm ≠ "") :
    get_attachment mail = ExtractOut.ok ⟨p.body, none, p.mimetype, nm⟩ ∧
    get_attachment (truncate mail) = get_attachment mail := by
  refine ⟨?_, get_attachment_truncate mail⟩
  rw [get_attachment_selected_some hp hn]
  simp only [finishAttachment]
  rw [if_neg hb, if_neg hne]

/-- C1 witness: a message whose top-level part is an `application/zip` part
with body `[1, 2]` and filename `r.zip` extracts to exactly that data. -/
theorem claim_C1_witness :
    get_attachment ⟨"application/zip", [1, 2], some "r.zip", []⟩ =
      ExtractOut.ok ⟨[1, 2], none, "application/zip", "r.zip"⟩ ∧
    get_attachment (truncate ⟨"application/zip", [1, 2], some "r.zip", []⟩) =
      get_attachment ⟨"application/zip", [1, 2], some "r.zip", []⟩ :=
  claim_C1 ⟨"application/zip", [1, 2], some "r.zip", []⟩ _ "r.zip" rfl
    (by decide) rfl (by decide)

/-- C2 counterexample: on a selected part whose content-disposition
`filename` parameter is absent, `get_attachment` panics (the `.unwrap()` on
`params.get("filename")`), it does not return the `MissingName` error
result the claim asserts. -/
theorem claim_C2_counterexample :
    get_attachment ⟨"application/zip", [1], none, []⟩ = ExtractOut.crash ∧
    get_attachment ⟨"application/zip", [1], none, []⟩ ≠
      ExtractOut.err "No file name found." := by
  exact ⟨rfl, by decide⟩

/-- C2 as amended: for every selected part, an absent `filename` parameter
makes `get_attachment` panic rather than return an error, while a present
but empty `filename` on a part with non-empty body yields the `MissingName`
error result (message `No file name found.`). -/
theorem claim_C2_amended (mail p : Part)
    (hp : selectPart mail = some p) :
    (p.filename = none → get_attachment mail = ExtractOut.crash) ∧
    (p.filename = some "" → p.body ≠ [] →
      get_attachment mail = ExtractOut.err "No file name found.") := by
  constructor
  · intro hfn
    exact get_attachment_selected_none hp hfn
  · intro hfn hb
    rw [get_attachment_selected_some hp hfn]
    simp [finishAttachment, hb]

/-- C2 amended witness: a top-level `application/zip` part with body `[1]`
and an empty declared filename yields the `MissingName` error result. -/
theorem claim_C2_amended_witness :
    get_attachment ⟨"application/zip", [1], some "", []⟩ =
      ExtractOut.err "No file name found." :=
  (claim_C2_amended ⟨"application/zip", [1], some "", []⟩ _ rfl).2 rfl (by decide)

/-- C3 evaluation: when the bytes are not a valid zip archive
(`ZipArchive::new` fails) or the gzip header is invalid (`Decoder::new`
fails), `decompress_attachment` panics on the `.unwrap()` of the library
constructor instead of returning the `CorruptArchive` / `CorruptStream`
error result the claim (and the spec's §4.4 contract) requires. -/
theorem claim_C3_eval :
    decompress_attachment (fun _ => ZipOpenResult.invalid)
        (fun _ => GzipResult.badHeader)
        ⟨[0], none, "application/zip", "a.zip"⟩ = DecompOut.crash ∧
    decompress_attachment (fun _ => ZipOpenResult.invalid)
        (fun _ => GzipResult.badHeader)
        ⟨[0], none, "application/gzip", "a.gz"⟩ = DecompOut.crash := by
  exact ⟨rfl, rfl⟩

/-- C4 evaluation: a message whose attachment fails to decompress crashes
the whole run (`main` unwraps the `decompress_attachment` result), so the
batch stops and the following message — which on its own would merely be
logged and skipped — is never processed, contradicting the claim that every
per-message error is converted into a logged skip. -/
theorem claim_C4_eval :
    runBatch (fun _ => ZipOpenResult.invalid) (fun _ => GzipResult.badHeader)
        [⟨"application/zip", [1], some "a.zip", []⟩,
         ⟨"text/plain", [2], none, []⟩] = [MsgOutcome.crash] ∧
    runBatch (fun _ => ZipOpenResult.invalid) (fun _ => GzipResult.badHeader)
        [⟨"text/plain", [2], none, []⟩] =
      [MsgOutcome.skipped "No attachment found."] := by
  exact ⟨rfl, rfl⟩

/-- C5: for every attachment decompressed through the zip branch, the output
filename is the recorded name of the archive entry at index 0 and the
output bytes are that entry's contents, whatever the originally declared
attachment filename was. -/
theorem claim_C5 (zipOpen : List Nat → ZipOpenResult)
    (gzipDecode : List Nat → GzipResult) (a : Attachment)
    (e : ZipEntry) (rest : List ZipEntry)
    (hm : a.mimetype = "application/zip")
    (hz : zipOpen a.content = ZipOpenResult.ok (e :: rest)) :
    decompress_attachment zipOpen gzipDecode a =
      DecompOut.ok { a with decompressed := some e.data, name := e.name } ∧
    ∀ n2 : String,
      decompress_attachment zipOpen gzipDecode { a with name := n2 } =
        DecompOut.ok { a with decompressed := some e.data, name := e.name } := by
  obtain ⟨c, d, m, nm⟩ := a
  simp only [Attachment.mk.injEq] at hm
  subst hm
  simp only at hz
  constructor
  · simp [decompress_attachment, hz]
  · intro n2
    simp [decompress_attachment, hz]

/-- C5 witness: an `application/zip` attachment declared as `declared.zip`
whose archive's first entry is `report.xml` with bytes `[3]` decompresses to
name `report.xml` and bytes `[3]`, and so does the same attachment declared
under any other name. -/
theorem claim_C5_witness :
    decompress_attachment (fun _ => ZipOpenResult.ok [⟨"report.xml", [3]⟩])
        (fun _ => GzipResult.badHeader)
        ⟨[1], none, "application/zip", "declared.zip"⟩ =
      DecompOut.ok ⟨[1], some [3], "application/zip", "report.xml"⟩ ∧
    decompress_attachment (fun _ => ZipOpenResult.ok [⟨"report.xml", [3]⟩])
        (fun _ => GzipResult.badHeader)
        ⟨[1], none, "application/zip", "other.bin"⟩ =
      DecompOut.ok ⟨[1], some [3], "application/zip", "report.xml"⟩ :=
  ⟨(claim_C5 _ _ ⟨[1], none, "application/zip", "declared.zip"⟩ _ _ rfl rfl).1,
   (claim_C5 _ _ ⟨[1], none, "application/zip", "declared.zip"⟩ _ _ rfl rfl).2
     "other.bin"⟩

/-- C6: for every attachment decompressed through the gzip branch, the
output filename is the declared name with exactly one trailing extension
component removed (a name of the form `x.y.gz` becomes `x.y`), and a name
with no extension component is left unchanged.  Names are taken without
path separators; `..` has no file name and is excluded from the first
form. -/
theorem claim_C6 (zipOpen : List Nat → ZipOpenResult)
    (gzipDecode : List Nat → GzipResult) (a : Attachment) (d : List Nat)
    (hm : a.mimetype = "application/gzip"
      ∨ a.mimetype = "application/octet-stream")
    (hd : gzipDecode a.content = GzipResult.ok d)
    (hslash : '/' ∉ a.name.data) :
    (∀ s t : List Char, a.name.data = s ++ '.' :: t → s ≠ [] → '.' ∉ t →
      a.name.data ≠ ['.', '.'] →
      decompress_attachment zipOpen gzipDecode a =
        DecompOut.ok { a with decompressed := some d, name := ⟨s⟩ }) ∧
    ('.' ∉ a.name.data →
      decompress_attachment zipOpen gzipDecode a =
        DecompOut.ok { a with decompressed := some d, name := a.name }) := by
  have hz : ¬ a.mimetype = "application/zip" := by
    rcases hm with h | h <;> rw [h] <;> decide
  have hbase : decompress_attachment zipOpen gzipDecode a =
      DecompOut.ok { a with
        decompressed := some d
        name := withExtensionEmpty a.name } := by
    rw [decompress_attachment, if_neg hz, if_pos hm, hd]
  constructor
  · intro s t hdata hs ht hdd
    have h0 : a.name.data ≠ [] := by
      rw [hdata]
      cases s with
      | nil => exact absurd rfl hs
      | cons x xs => simp
    have h1 : a.name.data ≠ ['.'] := by
      rw [hdata]
      cases s with
      | nil => exact absurd rfl hs
      | cons x xs => simp
    have hname : withExtensionEmptyChars a.name.data = s := by
      rw [withExtensionEmptyChars_no_slash hslash h0 h1 hdd, hdata,
        fileStemChars_ext hs ht]
    rw [hbase]
    simp only [withExtensionEmpty]
    rw [hname]
  · intro hdot
    have hname2 : withExtensionEmptyChars a.name.data = a.name.data := by
      cases hcs : a.name.data with
      | nil => rfl
      | cons x xs =>
        rw [hcs] at hdot hslash
        rw [withExtensionEmptyChars_no_slash hslash (List.cons_ne_nil _ _)
          (by intro hc; rw [hc] at hdot; exact hdot (List.mem_cons_self _ _))
          (by intro hc; rw [hc] at hdot; exact hdot (List.mem_cons_self _ _)),
          fileStemChars_no_dot hdot]
    rw [hbase]
    simp only [withExtensionEmpty]
    rw [hname2]

/-- C6 witness: a gzip attachment named `report.xml.gz` whose stream decodes
to `[7]` comes out named `report.xml` with bytes `[7]`. -/
theorem claim_C6_witness :
    decompress_attachment (fun _ => ZipOpenResult.invalid)
        (fun _ => GzipResult.ok [7])
        ⟨[9], none, "application/gzip", "report.xml.gz"⟩ =
      DecompOut.ok ⟨[9], some [7], "application/gzip", "report.xml"⟩ :=
  (claim_C6 _ _ ⟨[9], none, "application/gzip", "report.xml.gz"⟩ [7]
      (Or.inl rfl) rfl (by decide)).1
    "report.xml".data "gz".data (by decide) (by decide) (by decide) (by decide)

/-- C7: an `application/octet-stream` attachment is decompressed exactly as
if its media type were `application/gzip` — same gzip path, same failure
modes and same derived name, with no content sniffing — the only difference
being the `mimetype` field carried along in the result. -/
theorem claim_C7 (zipOpen : List Nat → ZipOpenResult)
    (gzipDecode : List Nat → GzipResult) (a : Attachment)
    (h : a.mimetype = "application/octet-stream") :
    decompress_attachment zipOpen gzipDecode a =
      mapOk (fun b => { b with mimetype := "application/octet-stream" })
        (decompress_attachment zipOpen gzipDecode
          { a with mimetype := "application/gzip" }) := by
  obtain ⟨c, d, m, nm⟩ := a
  simp only at h
  subst h
  simp only [decompress_attachment]
  cases hg : gzipDecode c with
  | badHeader => rfl
  | copyErr => rfl
  | ok data => rfl

/-- C7 witness: a concrete `application/octet-stream` attachment follows the
gzip path exactly as its `application/gzip` twin does. -/
theorem claim_C7_witness :
    decompress_attachment (fun _ => ZipOpenResult.invalid)
        (fun _ => GzipResult.ok [4])
        ⟨[8], none, "application/octet-stream", "x.gz"⟩ =
      mapOk (fun b => { b with mimetype := "application/octet-stream" })
        (decompress_attachment (fun _ => ZipOpenResult.invalid)
          (fun _ => GzipResult.ok [4])
          ⟨[8], none, "application/gzip", "x.gz"⟩) :=
  claim_C7 _ _ ⟨[8], none, "application/octet-stream", "x.gz"⟩ rfl

/-- C8: for every message none of whose parts (top-level or immediate
child) declares an allow-listed media type, the loop records a logged skip
(`No attachment found.`) instead of writing a file, and the batch continues
with the remaining messages exactly as if the message were absent. -/
theorem claim_C8 (zipOpen : List Nat → ZipOpenResult)
    (gzipDecode : List Nat → GzipResult) (mail : Part) (ms : List Part)
    (h1 : USABLE_MIMETYPES.contains mail.mimetype = false)
    (h2 : ∀ p ∈ mail.subparts, USABLE_MIMETYPES.contains p.mimetype = false) :
    processMessage zipOpen gzipDecode mail =
      MsgOutcome.skipped "No attachment found." ∧
    runBatch zipOpen gzipDecode (mail :: ms) =
      MsgOutcome.skipped "No attachment found." ::
        runBatch zipOpen gzipDecode ms := by
  have hget : get_attachment mail = ExtractOut.err "No attachment found." := by
    rw [get_attachment, if_neg (by rw [h1]; decide)]
    by_cases hemp : mail.subparts.isEmpty
    · rw [if_pos hemp]; rfl
    · rw [if_neg hemp]
      obtain ⟨ct2, hscan⟩ := scanSubparts_none_of_all mail.mimetype h2
      rw [hscan]; rfl
  have hmsg : processMessage zipOpen gzipDecode mail =
      MsgOutcome.skipped "No attachment found." := by
    rw [processMessage, hget]
  refine ⟨hmsg, ?_⟩
  rw [runBatch, hmsg]

/-- C8 witness: a `text/plain` message with a single `text/html` subpart is
skipped with the logged cause while the (empty) rest of the batch runs
untouched. -/
theorem claim_C8_witness :
    processMessage (fun _ => ZipOpenResult.invalid)
        (fun _ => GzipResult.badHeader)
        ⟨"text/plain", [1], none, [⟨"text/html", [2], none, []⟩]⟩ =
      MsgOutcome.skipped "No attachment found." ∧
    runBatch (fun _ => ZipOpenResult.invalid) (fun _ => GzipResult.badHeader)
        (⟨"text/plain", [1], none, [⟨"text/html", [2], none, []⟩]⟩ :: []) =
      MsgOutcome.skipped "No attachment found." ::
        runBatch (fun _ => ZipOpenResult.invalid)
          (fun _ => GzipResult.badHeader) [] :=
  claim_C8 _ _ ⟨"text/plain", [1], none, [⟨"text/html", [2], none, []⟩]⟩ []
    (by decide) (by decide)

/-- C9: decompression is deterministic over its observable input: two
attachments agreeing on content, mimetype and name (whatever their
pipeline-stage `decompressed` fields hold) decompress to the very same
outcome — same bytes, same derived name, same failure if any. -/
theorem claim_C9 (zipOpen : List Nat → ZipOpenResult)
    (gzipDecode : List Nat → GzipResult) (a1 a2 : Attachment)
    (hc : a1.content = a2.content) (hm : a1.mimetype = a2.mimetype)
    (hn : a1.name = a2.name) :
    decompress_attachment zipOpen gzipDecode a1 =
      decompress_attachment zipOpen gzipDecode a2 := by
  obtain ⟨c1, d1, m1, n1⟩ := a1
  obtain ⟨c2, d2, m2, n2⟩ := a2
  simp only at hc hm hn
  subst hc; subst hm; subst hn
  simp only [decompress_attachment]

/-- C9 witness: the same gzip attachment bytes and name decompress to the
identical outcome whether or not a stale `decompressed` field is present. -/
theorem claim_C9_witness :
    decompress_attachment (fun _ => ZipOpenResult.invalid)
        (fun _ => GzipResult.ok [4])
        ⟨[2], none, "application/gzip", "a.gz"⟩ =
      decompress_attachment (fun _ => ZipOpenResult.invalid)
        (fun _ => GzipResult.ok [4])
        ⟨[2], some [9], "application/gzip", "a.gz"⟩ :=
  claim_C9 _ _ ⟨[2], none, "application/gzip", "a.gz"⟩
    ⟨[2], some [9], "application/gzip", "a.gz"⟩ rfl rfl rfl

/-- C10: whenever extraction succeeds, the returned attachment's mimetype is
in the allow-list, hence is one of the three types that drive the
decompressor into one of its two real branches; and every successful
decompression leaves the `decompressed` field populated. -/
theorem claim_C10 (mail : Part) (a : Attachment)
    (h : get_attachment mail = ExtractOut.ok a) :
    USABLE_MIMETYPES.contains a.mimetype = true ∧
    (a.mimetype = "application/zip" ∨ a.mimetype = "application/gzip"
      ∨ a.mimetype = "application/octet-stream") ∧
    ∀ (zipOpen : List Nat → ZipOpenResult) (gzipDecode : List Nat → GzipResult)
      (b : Attachment),
      decompress_attachment zipOpen gzipDecode a = DecompOut.ok b →
        b.decompressed.isSome = true := by
  have hcontain : USABLE_MIMETYPES.contains a.mimetype = true := by
    rw [get_attachment] at h
    by_cases hm : USABLE_MIMETYPES.contains mail.mimetype
    · rw [if_pos hm] at h
      cases hfn : mail.filename with
      | none => rw [hfn] at h; cases h
      | some nm =>
        rw [hfn] at h
        obtain ⟨ha, -, -⟩ := finishAttachment_ok h
        rw [ha]
        exact hm
    · rw [if_neg hm] at h
      by_cases hemp : mail.subparts.isEmpty
      · rw [if_pos hemp] at h
        simp [finishAttachment] at h
      · rw [if_neg hemp] at h
        cases hscan : scanSubparts mail.mimetype mail.subparts with
        | noneFound ct2 =>
          rw [hscan] at h
          simp [finishAttachment] at h
        | found ct2 body fn =>
          rw [hscan] at h
          obtain ⟨p, -, hup, hct, -, hfn⟩ := scanSubparts_found_mem hscan
          cases fn with
          | none => cases h
          | some nm =>
            obtain ⟨ha, -, -⟩ := finishAttachment_ok h
            rw [ha]
            rw [hct]
            exact hup
  refine ⟨hcontain, ?_, fun z g b hb => decompress_ok_isSome hb⟩
  have hmem : a.mimetype ∈ USABLE_MIMETYPES := by
    simpa using hcontain
  simpa [USABLE_MIMETYPES] using hmem

/-- C10 witness: a message whose top-level part is `application/gzip`
extracts to an attachment with an allow-listed mimetype hitting the gzip
branch. -/
theorem claim_C10_witness :
    USABLE_MIMETYPES.contains "application/gzip" = true ∧
    ("application/gzip" = "application/zip"
      ∨ "application/gzip" = "application/gzip"
      ∨ "application/gzip" = "application/octet-stream") :=
  ⟨(claim_C10 ⟨"application/gzip", [5], some "r.gz", []⟩
      ⟨[5], none, "application/gzip", "r.gz"⟩ rfl).1,
   (claim_C10 ⟨"application/gzip", [5], some "r.gz", []⟩
      ⟨[5], none, "application/gzip", "r.gz"⟩ rfl).2.1⟩

end ImapDmarc
